import Mathlib

/-!
Verification of the `GitHubRepositoryTool` fetcher from
`src/smart_contract_audit_agent/tools/audit_tools.py`.

The Python code is shallowly embedded below.  Python strings are Lean
`String`s (Python `len`/slicing count code points, as `String.length` /
`List.take` on `String.data` do).  The Python string library functions used
by the tool (`str.replace`, `str.endswith`, `str.rstrip('/')`, `in`,
slicing) are embedded as executable structural recursions on `List Char`,
matching Python's semantics at every call site of the tool (all `replace`
patterns in the tool are non-empty literals).  Network effects are embedded
as explicit data: the repository tree is a finite tree value, fetches are a
function from URL to result, and every outgoing HTTP request is recorded in
a request trace together with its `Authorization` header.
-/

namespace AuditAgent

/-! ### Python string primitives -/

/-- Python `s.endswith(suffix)`: `suffix` is a suffix of `s`. -/
def pyEndsWith (s suffix : String) : Bool :=
  suffix.data.isSuffixOf s.data

/-- Python `s[:n]` on strings (slicing counts code points). -/
def pyTake (s : String) (n : Nat) : String :=
  ⟨s.data.take n⟩

/-- Python `pat in s`: `pat` occurs as a contiguous substring of `s`. -/
def hasSubstr (pat : List Char) : List Char → Bool
  | [] => pat.isEmpty
  | c :: rest => pat.isPrefixOf (c :: rest) || hasSubstr pat rest

/-- Python `s.rstrip('/')`: remove every trailing `'/'`. -/
def rstripSlashes (s : String) : String :=
  ⟨(s.data.reverse.dropWhile (fun c => c == '/')).reverse⟩

/-- Splitting a character list on `'/'` (used only to state the spec's
"path segment" reading of classification, and URL-shape checks). -/
def splitSlash : List Char → List (List Char)
  | [] => [[]]
  | '/' :: rest => [] :: splitSlash rest
  | c :: rest =>
    match splitSlash rest with
    | [] => [[c]]
    | h :: t => (c :: h) :: t

/-- Fuel-driven engine for Python `s.replace(pat, rep)` with a non-empty
`pat`: replaces every non-overlapping occurrence, scanning left to right.
The fuel argument only serves structural recursion; `fuel = s.length` is
always enough, since each step consumes at least one character. -/
def replaceFuel (pat rep : List Char) : Nat → List Char → List Char
  | _, [] => []
  | 0, s => s
  | fuel + 1, c :: rest =>
    if pat ≠ [] ∧ pat.isPrefixOf (c :: rest) then
      rep ++ replaceFuel pat rep fuel ((c :: rest).drop pat.length)
    else
      c :: replaceFuel pat rep fuel rest

/-- Python `s.replace(pat, rep)` on character lists (non-empty `pat`;
every call site in the embedded tool passes a non-empty literal). -/
def pyReplaceData (pat rep s : List Char) : List Char :=
  replaceFuel pat rep s.length s

/-- Python `s.replace(pat, rep)` on strings. -/
def pyReplace (s pat rep : String) : String :=
  ⟨pyReplaceData pat.data rep.data s.data⟩

/-- Python `"".join(results)`. -/
def concatStrings : List String → String
  | [] => ""
  | s :: rest => s ++ concatStrings rest

/-! ### URL validation (`_run`, lines 81-85)

`re.match(r'https://github\.com/([^/]+)/([^/]+)', repo_url.rstrip('/'))`
anchors at the start only: it strips all trailing slashes, requires the
literal prefix `https://github.com/`, then a non-empty run of non-`/`
characters (owner), a `/`, and a non-empty run of non-`/` characters
(repo).  Anything after the repo run is ignored. -/

def githubPrefix : String := "https://github.com/"

def parseRepoUrl (url : String) : Option (String × String) :=
  let s := rstripSlashes url
  if githubPrefix.data.isPrefixOf s.data then
    let t := s.data.drop githubPrefix.data.length
    let owner := t.takeWhile (fun c => c != '/')
    match t.drop owner.length with
    | [] => none
    | _ :: afterSlash =>
      let repo := afterSlash.takeWhile (fun c => c != '/')
      if owner.isEmpty || repo.isEmpty then none else some (⟨owner⟩, ⟨repo⟩)
  else none

/-- Error string returned for an invalid URL (line 83). -/
def invalidUrlMsg : String :=
  "Error: Invalid GitHub URL format. Expected: https://github.com/owner/repo"

/-- Result when discovery finds no `.sol` files (line 97). -/
def noFilesMsg : String := "No Solidity (.sol) files found in the repository."

/-- Modelled from the spec: the claimed URL shape
`https://github.com/<owner>/<repo>` with a trailing slash tolerated and
nothing after the repo segment.  Used only to compare the spec's C5 wording
with what the code accepts. -/
def matchesRepoUrlShape (url : String) : Bool :=
  let s : List Char :=
    if pyEndsWith url "/" then url.data.dropLast else url.data
  githubPrefix.data.isPrefixOf s &&
    match splitSlash (s.drop githubPrefix.data.length) with
    | [owner, repo] => !owner.isEmpty && !repo.isEmpty
    | _ => false

/-! ### Requests and headers

`headers = {'Accept': 'application/vnd.github.v3.raw'}` plus, when
`GITHUB_TOKEN` is set, `headers['Authorization'] = f'token {t}'`.
Directory listings drop the `Accept` key (line 213), so their header set is
empty or `{Authorization: token t}`.  Raw-content requests (lines 134/167)
send exactly `{'Authorization': headers.get('Authorization', '')}`: the
`Authorization` key is always present, with value `''` when no token is
set.  `auth = none` models an absent header; `auth = some v` a header with
value `v`. -/

inductive RequestKind where
  | listing
  | raw
deriving DecidableEq

structure Request where
  url : String
  kind : RequestKind
  auth : Option String
deriving DecidableEq

/-- Authorization header of a contents-listing request. -/
def listingAuth (tok : Option String) : Option String :=
  tok.map (fun t => "token " ++ t)

/-- Value of the Authorization header sent with every raw-content request:
`headers.get('Authorization', '')`. -/
def rawAuthValue (tok : Option String) : String :=
  match tok with
  | some t => "token " ++ t
  | none => ""

def Request.isRawContent (r : Request) : Bool :=
  match r.kind with
  | RequestKind.raw => true
  | RequestKind.listing => false

/-- The contents-listing URL (line 209). -/
def apiUrl (owner repo path : String) : String :=
  "https://api.github.com/repos/" ++ owner ++ "/" ++ repo ++ "/contents/" ++ path

def dirRequest (owner repo : String) (tok : Option String) (path : String) :
    Request :=
  ⟨apiUrl owner repo path, RequestKind.listing, listingAuth tok⟩

def rawRequest (tok : Option String) (u : String) : Request :=
  ⟨u, RequestKind.raw, some (rawAuthValue tok)⟩

/-! ### Repository tree and discovery (`_find_solidity_files`, lines 204-231)

A directory's contents listing is a sequence of entries; `ok = false` on a
directory means its contents-listing call failed (non-success status or
exception), in which case the code returns an empty list for that subtree
(lines 216-217) and the caller continues with the remaining entries.  `Fs`
is the entry sequence of one directory, with subdirectory listings inlined:
`file name path url rest`, `misc name path rest` (an entry whose `type` is
neither `file` nor `dir`, ignored by the loop), `dir path ok entries rest`,
and `nil` for the end of the sequence. -/

inductive Fs where
  | nil : Fs
  | file (name path downloadUrl : String) (rest : Fs) : Fs
  | misc (name path : String) (rest : Fs) : Fs
  | dir (path : String) (ok : Bool) (entries : Fs) (rest : Fs) : Fs

/-- The `(path, download_url)` pairs collected by `_find_solidity_files`
from an (already fetched) directory listing: files whose name ends in
`.sol` are collected in order, subdirectories are recursed into, and a
failed subdirectory listing contributes nothing. -/
def findFiles : Fs → List (String × String)
  | Fs.nil => []
  | Fs.file name path durl rest =>
    (if pyEndsWith name ".sol" then [(path, durl)] else []) ++ findFiles rest
  | Fs.misc _ _ rest => findFiles rest
  | Fs.dir _ ok entries rest =>
    (if ok then findFiles entries else []) ++ findFiles rest

/-- The listing requests issued while crawling the entries of a directory
whose own listing succeeded: entering a subdirectory issues one request;
if that listing succeeded its entries are crawled in turn. -/
def crawlReqs (owner repo : String) (tok : Option String) : Fs → List Request
  | Fs.nil => []
  | Fs.file _ _ _ rest => crawlReqs owner repo tok rest
  | Fs.misc _ _ rest => crawlReqs owner repo tok rest
  | Fs.dir p ok entries rest =>
    (dirRequest owner repo tok p ::
      (if ok then crawlReqs owner repo tok entries else [])) ++
      crawlReqs owner repo tok rest

/-! ### Classification (`_run`, lines 103-114) -/

/-- `is_main_contract`: `('src/' in file_path or file_path.startswith('src/'))
and not file_path.endswith('.t.sol') and not file_path.endswith('.s.sol')`. -/
def isMainContract (path : String) : Bool :=
  (hasSubstr "src/".data path.data || "src/".data.isPrefixOf path.data) &&
    !pyEndsWith path ".t.sol" && !pyEndsWith path ".s.sol"

/-- Modelled from the spec: "its path contains a `src/` segment", read as a
path whose directory components (all components before the file name)
include one named `src`.  Used only to compare the spec's C1 wording with
the code's substring test. -/
def hasSrcSegment (path : String) : Bool :=
  (splitSlash path.data).dropLast.contains "src".data

/-! ### Rendered output blocks (`_run`, lines 120-192)

Each element appended to `results` is one of these blocks; `renderBlock`
produces the exact string the Python code appends. -/

inductive Block where
  | summary (repoUrl : String) (total mains supps : Nat)
  | mainContract (path content : String)
  | suppFile (path content : String)
  | errorStatus (path : String) (status : Nat)
  | errorExc (path msg : String)
  | truncNotice
deriving DecidableEq

def renderBlock : Block → String
  | Block.summary repoUrl total mains supps =>
    "=== REPOSITORY ANALYSIS SUMMARY ===\n" ++
      "Repository: " ++ repoUrl ++ "\n" ++
      "Total files found: " ++ Nat.repr total ++ "\n" ++
      "Main contracts: " ++ Nat.repr mains ++ "\n" ++
      "Supporting files: " ++ Nat.repr supps ++ "\n\n"
  | Block.mainContract path content =>
    "\n=== MAIN CONTRACT: " ++ path ++ " ===\n" ++
      "Contract size: " ++ Nat.repr content.length ++ " characters\n" ++
      "Complete source code:\n" ++ content ++ "\n"
  | Block.suppFile path content =>
    "\n=== SUPPORTING FILE: " ++ path ++ " ===\n" ++
      "File size: " ++ Nat.repr content.length ++ " characters\n" ++
      (if 2000 < content.length then
        "First 2000 characters:\n" ++ pyTake content 2000 ++
          "...\n[File truncated for brevity]\n"
      else
        "Complete content:\n" ++ content ++ "\n")
  | Block.errorStatus path status =>
    "\n=== ERROR: " ++ path ++ " ===\n" ++
      "Could not fetch file (Status: " ++ Nat.repr status ++ ")\n"
  | Block.errorExc path msg =>
    "\n=== ERROR: " ++ path ++ " ===\n" ++ "Exception: " ++ msg ++ "\n"
  | Block.truncNotice =>
    "\n=== OUTPUT SIZE LIMIT REACHED ===\n" ++
      "Additional supporting files truncated.\n"

/-- How much a block adds to `total_chars`: the loops run
`total_chars += len(file_output)` only for successfully rendered content
blocks (lines 144 and 182); error blocks, the truncation notice, and the
summary never touch the counter. -/
def blockCharge : Block → Nat
  | Block.mainContract path content =>
    (renderBlock (Block.mainContract path content)).length
  | Block.suppFile path content =>
    (renderBlock (Block.suppFile path content)).length
  | _ => 0

def isNotice : Block → Bool
  | Block.truncNotice => true
  | _ => false

/-- Number of truncation notices among a list of blocks. -/
def noticeCount (l : List Block) : Nat :=
  l.countP isNotice

/-- Blocks that may appear in the main-contract region of the output: a
`MAIN CONTRACT` block or an inline `ERROR` block for a main file. -/
def isMainRegion : Block → Bool
  | Block.mainContract _ _ => true
  | Block.errorStatus _ _ => true
  | Block.errorExc _ _ => true
  | _ => false

/-- Blocks that may appear in the supporting region of the output: a
`SUPPORTING FILE` block, an inline `ERROR` block, or the truncation
notice. -/
def isSuppRegion : Block → Bool
  | Block.suppFile _ _ => true
  | Block.errorStatus _ _ => true
  | Block.errorExc _ _ => true
  | Block.truncNotice => true
  | _ => false

/-! ### Per-file fetching (`_run`, lines 130-134 and 164-167) -/

/-- Outcome of `requests.get(raw_url, ...)` for one file: a 200 response
with text `content`, a non-200 status, or a raised exception. -/
inductive FetchResult where
  | ok (content : String)
  | httpError (status : Nat)
  | exc (msg : String)
deriving DecidableEq

/-- `raw_url = download_url.replace('https://api.github.com/repos/',
'https://raw.githubusercontent.com/').replace('/contents/', '/')`. -/
def rewriteUrl (u : String) : String :=
  pyReplace (pyReplace u "https://api.github.com/repos/"
      "https://raw.githubusercontent.com/")
    "/contents/" "/"

/-! ### The two rendering loops (`_run`, lines 129-192) -/

structure LoopResult where
  blocks : List Block
  total : Nat
  reqs : List Request
deriving DecidableEq

/-- The main-contract loop (lines 129-155): every main file is fetched and
rendered with complete content; a failed fetch renders an inline error
block; `total_chars` grows by the rendered length of successful blocks.
No size cap is ever consulted. -/
def processMains (fetch : String → FetchResult) (tok : Option String) :
    List (String × String) → Nat → LoopResult
  | [], total => ⟨[], total, []⟩
  | (path, durl) :: rest, total =>
    match fetch (rewriteUrl durl) with
    | FetchResult.ok content =>
      let b := Block.mainContract path content
      let r := processMains fetch tok rest (total + (renderBlock b).length)
      ⟨b :: r.blocks, r.total, rawRequest tok (rewriteUrl durl) :: r.reqs⟩
    | FetchResult.httpError status =>
      let r := processMains fetch tok rest total
      ⟨Block.errorStatus path status :: r.blocks, r.total,
        rawRequest tok (rewriteUrl durl) :: r.reqs⟩
    | FetchResult.exc msg =>
      let r := processMains fetch tok rest total
      ⟨Block.errorExc path msg :: r.blocks, r.total,
        rawRequest tok (rewriteUrl durl) :: r.reqs⟩

/-- The supporting-file loop (lines 158-192): before each file the running
total is checked; once it exceeds 100000 a single truncation notice is
appended and the loop breaks, skipping every remaining file (no request is
made for them).  Otherwise the file is fetched and rendered (capped at
2000 characters inside `renderBlock`), errors becoming inline blocks. -/
def processSupporting (fetch : String → FetchResult) (tok : Option String) :
    List (String × String) → Nat → LoopResult
  | [], total => ⟨[], total, []⟩
  | (path, durl) :: rest, total =>
    if 100000 < total then ⟨[Block.truncNotice], total, []⟩
    else
      match fetch (rewriteUrl durl) with
      | FetchResult.ok content =>
        let b := Block.suppFile path content
        let r := processSupporting fetch tok rest (total + (renderBlock b).length)
        ⟨b :: r.blocks, r.total, rawRequest tok (rewriteUrl durl) :: r.reqs⟩
      | FetchResult.httpError status =>
        let r := processSupporting fetch tok rest total
        ⟨Block.errorStatus path status :: r.blocks, r.total,
          rawRequest tok (rewriteUrl durl) :: r.reqs⟩
      | FetchResult.exc msg =>
        let r := processSupporting fetch tok rest total
        ⟨Block.errorExc path msg :: r.blocks, r.total,
          rawRequest tok (rewriteUrl durl) :: r.reqs⟩

/-! ### Top-level run (`_run`, lines 75-202) -/

/-- One invocation's inputs: the call arguments (`repo_url`,
`file_pattern` — the latter is accepted but never read), the environment
token, and the observable world: the root listing (`rootOk = false` models
a failed listing of the repository root) and the per-URL fetch outcomes. -/
structure RunConfig where
  repoUrl : String
  filePattern : String
  token : Option String
  rootOk : Bool
  root : Fs
  fetch : String → FetchResult

/-- `solidity_files` (line 94). -/
def discoveredFiles (cfg : RunConfig) : List (String × String) :=
  if cfg.rootOk then findFiles cfg.root else []

/-- `main_contracts` (lines 100-112): discovery order, filtered. -/
def mainFilesOf (cfg : RunConfig) : List (String × String) :=
  (discoveredFiles cfg).filter (fun f => isMainContract f.1)

/-- `other_files` (lines 101-114). -/
def otherFilesOf (cfg : RunConfig) : List (String × String) :=
  (discoveredFiles cfg).filter (fun f => !isMainContract f.1)

/-- The summary block appended first (lines 121-126). -/
def summaryOf (cfg : RunConfig) : Block :=
  Block.summary cfg.repoUrl (discoveredFiles cfg).length
    (mainFilesOf cfg).length (otherFilesOf cfg).length

def mainLoop (cfg : RunConfig) : LoopResult :=
  processMains cfg.fetch cfg.token (mainFilesOf cfg) 0

def suppLoop (cfg : RunConfig) : LoopResult :=
  processSupporting cfg.fetch cfg.token (otherFilesOf cfg) (mainLoop cfg).total

/-- The `results` list: summary, then the main loop's blocks, then the
supporting loop's blocks. -/
def runBlocks (cfg : RunConfig) : List Block :=
  summaryOf cfg :: ((mainLoop cfg).blocks ++ (suppLoop cfg).blocks)

/-- `full_output = "".join(results)` (line 194). -/
def prePatchOutput (cfg : RunConfig) : String :=
  concatStrings ((runBlocks cfg).map renderBlock)

/-- `final_summary` (line 197): the summary string with
`"Supporting files:"` substituted; note the size written here is the
length of `full_output`, measured before the substitution below. -/
def finalSummaryOf (cfg : RunConfig) : String :=
  pyReplace (renderBlock (summaryOf cfg)) "Supporting files:"
    ("Supporting files: " ++ Nat.repr (otherFilesOf cfg).length ++
      "\nTotal output size: " ++ Nat.repr (prePatchOutput cfg).length ++
      " characters\n")

/-- The listing requests of one run: the root listing request, then the
crawl of the root's entries when that listing succeeded. -/
def discoveryRequests (owner repo : String) (cfg : RunConfig) : List Request :=
  dirRequest owner repo cfg.token "" ::
    (if cfg.rootOk then crawlReqs owner repo cfg.token cfg.root else [])

structure RunResult where
  output : String
  requests : List Request
deriving DecidableEq

/-- `GitHubRepositoryTool._run`: validate the URL (returning the error
string with no request on failure), discover files, report `noFilesMsg`
when none were found, otherwise render main then supporting files and
return `full_output.replace(summary, final_summary)` (line 199).  Every
failure path yields a returned string, never an exception. -/
def run (cfg : RunConfig) : RunResult :=
  match parseRepoUrl cfg.repoUrl with
  | none => ⟨invalidUrlMsg, []⟩
  | some (owner, repo) =>
    if (discoveredFiles cfg).isEmpty then
      ⟨noFilesMsg, discoveryRequests owner repo cfg⟩
    else
      ⟨pyReplace (prePatchOutput cfg) (renderBlock (summaryOf cfg))
          (finalSummaryOf cfg),
        discoveryRequests owner repo cfg ++ (mainLoop cfg).reqs ++
          (suppLoop cfg).reqs⟩

/-! ### Properties of the replace primitive -/

theorem replaceFuel_nil (pat rep : List Char) (f : Nat) :
    replaceFuel pat rep f [] = [] := by
  cases f <;> rfl

theorem replaceFuel_cons_pos (pat rep : List Char) (f : Nat) (c : Char)
    (rest : List Char) (h : pat ≠ [] ∧ pat.isPrefixOf (c :: rest) = true) :
    replaceFuel pat rep (f + 1) (c :: rest) =
      rep ++ replaceFuel pat rep f ((c :: rest).drop pat.length) := by
  rw [replaceFuel, if_pos h]

theorem replaceFuel_cons_neg (pat rep : List Char) (f : Nat) (c : Char)
    (rest : List Char) (h : ¬(pat ≠ [] ∧ pat.isPrefixOf (c :: rest) = true)) :
    replaceFuel pat rep (f + 1) (c :: rest) =
      c :: replaceFuel pat rep f rest := by
  rw [replaceFuel, if_neg h]

theorem replaceFuel_congr (pat rep : List Char) :
    ∀ (f₁ : Nat) (s : List Char) (f₂ : Nat), s.length ≤ f₁ → s.length ≤ f₂ →
      replaceFuel pat rep f₁ s = replaceFuel pat rep f₂ s := by
  intro f₁
  induction f₁ with
  | zero =>
    intro s f₂ h1 _
    have hs : s = [] := List.eq_nil_of_length_eq_zero (Nat.le_zero.mp h1)
    subst hs
    rw [replaceFuel_nil, replaceFuel_nil]
  | succ a ih =>
    intro s f₂ h1 h2
    cases s with
    | nil => rw [replaceFuel_nil, replaceFuel_nil]
    | cons c rest =>
      cases f₂ with
      | zero => simp at h2
      | succ b =>
        by_cases h : pat ≠ [] ∧ pat.isPrefixOf (c :: rest) = true
        · rw [replaceFuel_cons_pos _ _ _ _ _ h, replaceFuel_cons_pos _ _ _ _ _ h]
          have hp : 1 ≤ pat.length := by
            cases pat with
            | nil => exact absurd rfl h.1
            | cons x xs => simp
          have hd : ((c :: rest).drop pat.length).length ≤ a := by
            simp only [List.length_drop, List.length_cons]
            simp only [List.length_cons] at h1
            omega
          have hd2 : ((c :: rest).drop pat.length).length ≤ b := by
            simp only [List.length_drop, List.length_cons]
            simp only [List.length_cons] at h2
            omega
          rw [ih _ _ hd hd2]
        · rw [replaceFuel_cons_neg _ _ _ _ _ h, replaceFuel_cons_neg _ _ _ _ _ h]
          simp only [List.length_cons] at h1 h2
          rw [ih rest b (by omega) (by omega)]

theorem replaceFuel_length_ge (pat rep : List Char)
    (hlen : pat.length ≤ rep.length) :
    ∀ (f : Nat) (s : List Char), s.length ≤ (replaceFuel pat rep f s).length := by
  intro f
  induction f with
  | zero =>
    intro s
    cases s with
    | nil => simp [replaceFuel_nil]
    | cons c rest => exact Nat.le_refl _
  | succ a ih =>
    intro s
    cases s with
    | nil => simp [replaceFuel_nil]
    | cons c rest =>
      by_cases h : pat ≠ [] ∧ pat.isPrefixOf (c :: rest) = true
      · rw [replaceFuel_cons_pos _ _ _ _ _ h]
        have hpre : pat.length ≤ (c :: rest).length :=
          (List.isPrefixOf_iff_prefix.mp h.2).length_le
        have h2 := ih ((c :: rest).drop pat.length)
        simp only [List.length_append, List.length_drop, List.length_cons] at h2 ⊢
        simp only [List.length_cons] at hpre
        omega
      · rw [replaceFuel_cons_neg _ _ _ _ _ h]
        have h2 := ih rest
        simp only [List.length_cons]
        omega

theorem replaceFuel_length_occ (pat rep : List Char) (hne : pat ≠ [])
    (hlen : pat.length ≤ rep.length) :
    ∀ (a b : List Char) (f : Nat), (a ++ (pat ++ b)).length ≤ f →
      (a ++ (pat ++ b)).length + (rep.length - pat.length) ≤
        (replaceFuel pat rep f (a ++ (pat ++ b))).length := by
  intro a
  induction a with
  | nil =>
    intro b f hf
    simp only [List.nil_append] at hf ⊢
    obtain ⟨p, ps, rfl⟩ : ∃ p ps, pat = p :: ps := by
      cases pat with
      | nil => exact absurd rfl hne
      | cons x xs => exact ⟨x, xs, rfl⟩
    cases f with
    | zero => simp at hf
    | succ fl =>
      simp only [List.cons_append] at hf ⊢
      rw [replaceFuel_cons_pos _ _ _ _ _
        (by
          constructor
          · exact hne
          · rw [← List.cons_append]
            exact List.isPrefixOf_iff_prefix.mpr (List.prefix_append _ _))]
      have hdrop : (p :: (ps ++ b)).drop (p :: ps).length = b := by
        rw [← List.cons_append]
        exact List.drop_left _ _
      rw [hdrop]
      have h2 := replaceFuel_length_ge (p :: ps) rep hlen fl b
      simp only [List.length_append, List.length_cons] at hlen h2 ⊢
      omega
  | cons c a' ih =>
    intro b f hf
    have hshape : (c :: a') ++ (pat ++ b) = c :: (a' ++ (pat ++ b)) := rfl
    rw [hshape] at hf ⊢
    cases f with
    | zero => simp at hf
    | succ fl =>
      by_cases h : pat ≠ [] ∧ pat.isPrefixOf (c :: (a' ++ (pat ++ b))) = true
      · rw [replaceFuel_cons_pos _ _ _ _ _ h]
        have hpre : pat.length ≤ (c :: (a' ++ (pat ++ b))).length :=
          (List.isPrefixOf_iff_prefix.mp h.2).length_le
        have h2 := replaceFuel_length_ge pat rep hlen fl
          ((c :: (a' ++ (pat ++ b))).drop pat.length)
        simp only [List.length_append, List.length_drop, List.length_cons] at h2 hpre ⊢
        omega
      · rw [replaceFuel_cons_neg _ _ _ _ _ h]
        simp only [List.length_cons] at hf
        have h2 := ih b fl (by omega)
        simp only [List.length_append, List.length_cons] at h2 ⊢
        omega



/-! ### Properties of the rendering loops -/

theorem processMains_cons_ok (fetch : String → FetchResult) (tok : Option String)
    (path durl content : String) (rest : List (String × String)) (total : Nat)
    (hf : fetch (rewriteUrl durl) = FetchResult.ok content) :
    processMains fetch tok ((path, durl) :: rest) total =
      ⟨Block.mainContract path content ::
          (processMains fetch tok rest
            (total + (renderBlock (Block.mainContract path content)).length)).blocks,
        (processMains fetch tok rest
          (total + (renderBlock (Block.mainContract path content)).length)).total,
        rawRequest tok (rewriteUrl durl) ::
          (processMains fetch tok rest
            (total + (renderBlock (Block.mainContract path content)).length)).reqs⟩ := by
  simp [processMains, hf]

theorem processMains_cons_err (fetch : String → FetchResult) (tok : Option String)
    (path durl : String) (st : Nat) (rest : List (String × String)) (total : Nat)
    (hf : fetch (rewriteUrl durl) = FetchResult.httpError st) :
    processMains fetch tok ((path, durl) :: rest) total =
      ⟨Block.errorStatus path st :: (processMains fetch tok rest total).blocks,
        (processMains fetch tok rest total).total,
        rawRequest tok (rewriteUrl durl) :: (processMains fetch tok rest total).reqs⟩ := by
  simp [processMains, hf]

theorem processMains_cons_exc (fetch : String → FetchResult) (tok : Option String)
    (path durl msg : String) (rest : List (String × String)) (total : Nat)
    (hf : fetch (rewriteUrl durl) = FetchResult.exc msg) :
    processMains fetch tok ((path, durl) :: rest) total =
      ⟨Block.errorExc path msg :: (processMains fetch tok rest total).blocks,
        (processMains fetch tok rest total).total,
        rawRequest tok (rewriteUrl durl) :: (processMains fetch tok rest total).reqs⟩ := by
  simp [processMains, hf]

theorem processSupporting_cap (fetch : String → FetchResult) (tok : Option String)
    (p u : String) (rest : List (String × String)) (total : Nat)
    (h : 100000 < total) :
    processSupporting fetch tok ((p, u) :: rest) total =
      ⟨[Block.truncNotice], total, []⟩ := by
  simp [processSupporting, h]

theorem processSupporting_cons_ok (fetch : String → FetchResult) (tok : Option String)
    (path durl content : String) (rest : List (String × String)) (total : Nat)
    (hcap : ¬100000 < total)
    (hf : fetch (rewriteUrl durl) = FetchResult.ok content) :
    processSupporting fetch tok ((path, durl) :: rest) total =
      ⟨Block.suppFile path content ::
          (processSupporting fetch tok rest
            (total + (renderBlock (Block.suppFile path content)).length)).blocks,
        (processSupporting fetch tok rest
          (total + (renderBlock (Block.suppFile path content)).length)).total,
        rawRequest tok (rewriteUrl durl) ::
          (processSupporting fetch tok rest
            (total + (renderBlock (Block.suppFile path content)).length)).reqs⟩ := by
  simp [processSupporting, hcap, hf]

theorem processSupporting_cons_err (fetch : String → FetchResult) (tok : Option String)
    (path durl : String) (st : Nat) (rest : List (String × String)) (total : Nat)
    (hcap : ¬100000 < total)
    (hf : fetch (rewriteUrl durl) = FetchResult.httpError st) :
    processSupporting fetch tok ((path, durl) :: rest) total =
      ⟨Block.errorStatus path st :: (processSupporting fetch tok rest total).blocks,
        (processSupporting fetch tok rest total).total,
        rawRequest tok (rewriteUrl durl) ::
          (processSupporting fetch tok rest total).reqs⟩ := by
  simp [processSupporting, hcap, hf]

theorem processSupporting_cons_exc (fetch : String → FetchResult) (tok : Option String)
    (path durl msg : String) (rest : List (String × String)) (total : Nat)
    (hcap : ¬100000 < total)
    (hf : fetch (rewriteUrl durl) = FetchResult.exc msg) :
    processSupporting fetch tok ((path, durl) :: rest) total =
      ⟨Block.errorExc path msg :: (processSupporting fetch tok rest total).blocks,
        (processSupporting fetch tok rest total).total,
        rawRequest tok (rewriteUrl durl) ::
          (processSupporting fetch tok rest total).reqs⟩ := by
  simp [processSupporting, hcap, hf]

theorem processMains_length (fetch : String → FetchResult) (tok : Option String) :
    ∀ (files : List (String × String)) (total : Nat),
      ((processMains fetch tok files total).blocks).length = files.length := by
  intro files
  induction files with
  | nil => intro total; rfl
  | cons f rest ih =>
    intro total
    obtain ⟨path, durl⟩ := f
    cases hf : fetch (rewriteUrl durl) with
    | ok content => rw [processMains_cons_ok _ _ _ _ _ _ _ hf]; simp [ih]
    | httpError st => rw [processMains_cons_err _ _ _ _ _ _ _ hf]; simp [ih]
    | exc msg => rw [processMains_cons_exc _ _ _ _ _ _ _ hf]; simp [ih]

theorem processMains_region (fetch : String → FetchResult) (tok : Option String) :
    ∀ (files : List (String × String)) (total : Nat) (b : Block),
      b ∈ (processMains fetch tok files total).blocks → isMainRegion b = true := by
  intro files
  induction files with
  | nil => intro total b hb; simp [processMains] at hb
  | cons f rest ih =>
    intro total b hb
    obtain ⟨path, durl⟩ := f
    cases hf : fetch (rewriteUrl durl) with
    | ok content =>
      rw [processMains_cons_ok _ _ _ _ _ _ _ hf] at hb
      rcases List.mem_cons.mp hb with rfl | hb'
      · rfl
      · exact ih _ _ hb'
    | httpError st =>
      rw [processMains_cons_err _ _ _ _ _ _ _ hf] at hb
      rcases List.mem_cons.mp hb with rfl | hb'
      · rfl
      · exact ih _ _ hb'
    | exc msg =>
      rw [processMains_cons_exc _ _ _ _ _ _ _ hf] at hb
      rcases List.mem_cons.mp hb with rfl | hb'
      · rfl
      · exact ih _ _ hb'

theorem processMains_total (fetch : String → FetchResult) (tok : Option String) :
    ∀ (files : List (String × String)) (total : Nat),
      (processMains fetch tok files total).total =
        total + (((processMains fetch tok files total).blocks).map blockCharge).sum := by
  intro files
  induction files with
  | nil => intro total; simp [processMains]
  | cons f rest ih =>
    intro total
    obtain ⟨path, durl⟩ := f
    cases hf : fetch (rewriteUrl durl) with
    | ok content =>
      rw [processMains_cons_ok _ _ _ _ _ _ _ hf]
      simp [ih, blockCharge]
      omega
    | httpError st =>
      rw [processMains_cons_err _ _ _ _ _ _ _ hf]
      simp [ih, blockCharge]
    | exc msg =>
      rw [processMains_cons_exc _ _ _ _ _ _ _ hf]
      simp [ih, blockCharge]

theorem processMains_mem_ok (fetch : String → FetchResult) (tok : Option String) :
    ∀ (files : List (String × String)) (total : Nat) (p u c : String),
      (p, u) ∈ files → fetch (rewriteUrl u) = FetchResult.ok c →
      Block.mainContract p c ∈ (processMains fetch tok files total).blocks := by
  intro files
  induction files with
  | nil => intro total p u c hmem; simp at hmem
  | cons f rest ih =>
    intro total p u c hmem hok
    obtain ⟨path, durl⟩ := f
    rcases List.mem_cons.mp hmem with heq | hmem'
    · injection heq with h1 h2
      subst h1
      subst h2
      rw [processMains_cons_ok _ _ _ _ _ _ _ hok]
      exact List.mem_cons_self _ _
    · cases hf : fetch (rewriteUrl durl) with
      | ok content =>
        rw [processMains_cons_ok _ _ _ _ _ _ _ hf]
        exact List.mem_cons.mpr (Or.inr (ih _ p u c hmem' hok))
      | httpError st =>
        rw [processMains_cons_err _ _ _ _ _ _ _ hf]
        exact List.mem_cons.mpr (Or.inr (ih _ p u c hmem' hok))
      | exc msg =>
        rw [processMains_cons_exc _ _ _ _ _ _ _ hf]
        exact List.mem_cons.mpr (Or.inr (ih _ p u c hmem' hok))

theorem processMains_mem_err (fetch : String → FetchResult) (tok : Option String) :
    ∀ (files : List (String × String)) (total : Nat) (p u : String) (st : Nat),
      (p, u) ∈ files → fetch (rewriteUrl u) = FetchResult.httpError st →
      Block.errorStatus p st ∈ (processMains fetch tok files total).blocks := by
  intro files
  induction files with
  | nil => intro total p u st hmem; simp at hmem
  | cons f rest ih =>
    intro total p u st hmem herr
    obtain ⟨path, durl⟩ := f
    rcases List.mem_cons.mp hmem with heq | hmem'
    · injection heq with h1 h2
      subst h1
      subst h2
      rw [processMains_cons_err _ _ _ _ _ _ _ herr]
      exact List.mem_cons_self _ _
    · cases hf : fetch (rewriteUrl durl) with
      | ok content =>
        rw [processMains_cons_ok _ _ _ _ _ _ _ hf]
        exact List.mem_cons.mpr (Or.inr (ih _ p u st hmem' herr))
      | httpError st2 =>
        rw [processMains_cons_err _ _ _ _ _ _ _ hf]
        exact List.mem_cons.mpr (Or.inr (ih _ p u st hmem' herr))
      | exc msg =>
        rw [processMains_cons_exc _ _ _ _ _ _ _ hf]
        exact List.mem_cons.mpr (Or.inr (ih _ p u st hmem' herr))

theorem processMains_reqs (fetch : String → FetchResult) (tok : Option String) :
    ∀ (files : List (String × String)) (total : Nat) (r : Request),
      r ∈ (processMains fetch tok files total).reqs →
      r.kind = RequestKind.raw ∧ r.auth = some (rawAuthValue tok) := by
  intro files
  induction files with
  | nil => intro total r hr; simp [processMains] at hr
  | cons f rest ih =>
    intro total r hr
    obtain ⟨path, durl⟩ := f
    cases hf : fetch (rewriteUrl durl) with
    | ok content =>
      rw [processMains_cons_ok _ _ _ _ _ _ _ hf] at hr
      rcases List.mem_cons.mp hr with rfl | hr'
      · exact ⟨rfl, rfl⟩
      · exact ih _ _ hr'
    | httpError st =>
      rw [processMains_cons_err _ _ _ _ _ _ _ hf] at hr
      rcases List.mem_cons.mp hr with rfl | hr'
      · exact ⟨rfl, rfl⟩
      · exact ih _ _ hr'
    | exc msg =>
      rw [processMains_cons_exc _ _ _ _ _ _ _ hf] at hr
      rcases List.mem_cons.mp hr with rfl | hr'
      · exact ⟨rfl, rfl⟩
      · exact ih _ _ hr'

theorem processSupporting_reqs (fetch : String → FetchResult) (tok : Option String) :
    ∀ (files : List (String × String)) (total : Nat) (r : Request),
      r ∈ (processSupporting fetch tok files total).reqs →
      r.kind = RequestKind.raw ∧ r.auth = some (rawAuthValue tok) := by
  intro files
  induction files with
  | nil => intro total r hr; simp [processSupporting] at hr
  | cons f rest ih =>
    intro total r hr
    obtain ⟨path, durl⟩ := f
    by_cases hcap : 100000 < total
    · rw [processSupporting_cap _ _ _ _ _ _ hcap] at hr
      simp at hr
    · cases hf : fetch (rewriteUrl durl) with
      | ok content =>
        rw [processSupporting_cons_ok _ _ _ _ _ _ _ hcap hf] at hr
        rcases List.mem_cons.mp hr with rfl | hr'
        · exact ⟨rfl, rfl⟩
        · exact ih _ _ hr'
      | httpError st =>
        rw [processSupporting_cons_err _ _ _ _ _ _ _ hcap hf] at hr
        rcases List.mem_cons.mp hr with rfl | hr'
        · exact ⟨rfl, rfl⟩
        · exact ih _ _ hr'
      | exc msg =>
        rw [processSupporting_cons_exc _ _ _ _ _ _ _ hcap hf] at hr
        rcases List.mem_cons.mp hr with rfl | hr'
        · exact ⟨rfl, rfl⟩
        · exact ih _ _ hr'

/-- A non-notice block prepended to a block list preserves the
"at most one notice, and only in last position" invariant. -/
theorem noticeLast_cons (b : Block) (hb : isNotice b = false) (l : List Block)
    (h1 : noticeCount l ≤ 1)
    (h2 : Block.truncNotice ∈ l → l.getLast? = some Block.truncNotice) :
    noticeCount (b :: l) ≤ 1 ∧
      (Block.truncNotice ∈ b :: l → (b :: l).getLast? = some Block.truncNotice) := by
  constructor
  · simp [noticeCount, List.countP_cons, hb]
    exact h1
  · intro hmem
    rcases List.mem_cons.mp hmem with heq | hmem'
    · rw [← heq] at hb
      simp [isNotice] at hb
    · have hlast := h2 hmem'
      cases l with
      | nil => simp at hmem'
      | cons x xs => rw [List.getLast?_cons_cons]; exact hlast

theorem processSupporting_notice (fetch : String → FetchResult) (tok : Option String) :
    ∀ (files : List (String × String)) (total : Nat),
      noticeCount (processSupporting fetch tok files total).blocks ≤ 1 ∧
        (Block.truncNotice ∈ (processSupporting fetch tok files total).blocks →
          ((processSupporting fetch tok files total).blocks).getLast? =
            some Block.truncNotice) := by
  intro files
  induction files with
  | nil =>
    intro total
    refine ⟨by simp [processSupporting, noticeCount], ?_⟩
    intro h
    simp [processSupporting] at h
  | cons f rest ih =>
    intro total
    obtain ⟨path, durl⟩ := f
    by_cases hcap : 100000 < total
    · rw [processSupporting_cap _ _ _ _ _ _ hcap]
      exact ⟨by simp [noticeCount, isNotice], fun _ => rfl⟩
    · cases hf : fetch (rewriteUrl durl) with
      | ok content =>
        rw [processSupporting_cons_ok _ _ _ _ _ _ _ hcap hf]
        exact noticeLast_cons (Block.suppFile path content) rfl _ (ih _).1 (ih _).2
      | httpError st =>
        rw [processSupporting_cons_err _ _ _ _ _ _ _ hcap hf]
        exact noticeLast_cons (Block.errorStatus path st) rfl _ (ih _).1 (ih _).2
      | exc msg =>
        rw [processSupporting_cons_exc _ _ _ _ _ _ _ hcap hf]
        exact noticeLast_cons (Block.errorExc path msg) rfl _ (ih _).1 (ih _).2

theorem processMains_no_notice (fetch : String → FetchResult) (tok : Option String)
    (files : List (String × String)) (total : Nat) :
    noticeCount (processMains fetch tok files total).blocks = 0 := by
  rw [noticeCount, List.countP_eq_zero]
  intro b hb
  have := processMains_region fetch tok files total b hb
  cases b <;> simp_all [isNotice, isMainRegion]

theorem processSupporting_total_charge (fetch : String → FetchResult)
    (tok : Option String) :
    ∀ (files : List (String × String)) (total : Nat),
      (processSupporting fetch tok files total).total =
        total + (((processSupporting fetch tok files total).blocks).map blockCharge).sum := by
  intro files
  induction files with
  | nil => intro total; simp [processSupporting]
  | cons f rest ih =>
    intro total
    obtain ⟨path, durl⟩ := f
    by_cases hcap : 100000 < total
    · rw [processSupporting_cap _ _ _ _ _ _ hcap]
      simp [blockCharge]
    · cases hf : fetch (rewriteUrl durl) with
      | ok content =>
        rw [processSupporting_cons_ok _ _ _ _ _ _ _ hcap hf]
        simp [ih, blockCharge]
        omega
      | httpError st =>
        rw [processSupporting_cons_err _ _ _ _ _ _ _ hcap hf]
        simp [ih, blockCharge]
      | exc msg =>
        rw [processSupporting_cons_exc _ _ _ _ _ _ _ hcap hf]
        simp [ih, blockCharge]



/-! ### Claim C1 -/

theorem hasSubstr_of_isPrefixOf (pat l : List Char)
    (h : pat.isPrefixOf l = true) : hasSubstr pat l = true := by
  cases l with
  | nil =>
    cases pat with
    | nil => rfl
    | cons c cs => simp [List.isPrefixOf] at h
  | cons c rest => simp [hasSubstr, h]

/-- C1 counterexample: the code classifies by the substring test
`'src/' in file_path`, not by a `src` path segment.  The path
`libsrc/foo.sol` has no `src/` segment, yet the code classifies it as a
main contract, so the claimed "exactly when" equivalence fails here. -/
theorem c1_counterexample :
    isMainContract "libsrc/foo.sol" = true ∧
      hasSrcSegment "libsrc/foo.sol" = false := by
  decide

/-- C1 (amended): a discovered file is classified main exactly when its
path contains `src/` as a substring (the redundant `startswith('src/')`
disjunct changes nothing) and its name ends in neither `.t.sol` nor
`.s.sol`; in particular `src/foo.sol` is main while `src/foo.t.sol` and
`src/foo.s.sol` are supporting. -/
theorem c1_classification (path : String) :
    (isMainContract path =
      (hasSubstr "src/".data path.data && !pyEndsWith path ".t.sol" &&
        !pyEndsWith path ".s.sol")) ∧
      isMainContract "src/foo.sol" = true ∧
      isMainContract "src/foo.t.sol" = false ∧
      isMainContract "src/foo.s.sol" = false := by
  refine ⟨?_, by decide, by decide, by decide⟩
  rw [isMainContract]
  cases hp : "src/".data.isPrefixOf path.data with
  | true => rw [hasSubstr_of_isPrefixOf _ _ hp]; simp
  | false => simp

/-! ### Claim C2 -/

/-- C2: in the supporting-file loop, once the running total exceeds the
100000-character threshold while files remain, the loop appends exactly
the single truncation notice and skips every remaining supporting file
(none is rendered, none is even fetched); across any supporting loop the
notice appears at most once; and the main-contract loop is never subject
to the cap: it renders one block per main file whatever the total, and
never emits a notice. -/
theorem c2_supporting_cap (fetch : String → FetchResult) (tok : Option String)
    (pu : String × String) (rest files : List (String × String))
    (total t2 : Nat) (h : 100000 < total) :
    processSupporting fetch tok (pu :: rest) total =
        ⟨[Block.truncNotice], total, []⟩ ∧
      noticeCount (processSupporting fetch tok files t2).blocks ≤ 1 ∧
      (processMains fetch tok files t2).blocks.length = files.length ∧
      noticeCount (processMains fetch tok files t2).blocks = 0 := by
  obtain ⟨p, u⟩ := pu
  exact ⟨processSupporting_cap fetch tok p u rest total h,
    (processSupporting_notice fetch tok files t2).1,
    processMains_length fetch tok files t2,
    processMains_no_notice fetch tok files t2⟩

/-- C2 witness: a concrete over-budget state with one remaining
supporting file. -/
theorem c2_supporting_cap_witness :
    100000 < 100001 ∧
      processSupporting (fun _ => FetchResult.ok "x") none
          [("test/a.t.sol", "u")] 100001 =
        ⟨[Block.truncNotice], 100001, []⟩ :=
  ⟨by decide,
    (c2_supporting_cap (fun _ => FetchResult.ok "x") none ("test/a.t.sol", "u")
      [] [] 100001 0 (by decide)).1⟩

/-! ### Claim C8 -/

/-- C8: a directory whose contents-listing call fails contributes no files
at all (its whole subtree is dropped), while discovery simply continues
with the entries after it: preceding sibling files are still collected,
and a successful parent directory still yields the files of the failed
directory's sibling subtrees.  `findFiles` is total, so no listing failure
can abort the traversal. -/
theorem c8_listing_failure (p : String) (entries : Fs) :
    (∀ rest : Fs, findFiles (Fs.dir p false entries rest) = findFiles rest) ∧
      (∀ (pp : String) (sib rest : Fs),
        findFiles (Fs.dir pp true (Fs.dir p false entries sib) rest) =
          findFiles sib ++ findFiles rest) ∧
      (∀ (n fp du : String) (rest : Fs),
        findFiles (Fs.file n fp du (Fs.dir p false entries rest)) =
          (if pyEndsWith n ".sol" then [(fp, du)] else []) ++ findFiles rest) := by
  refine ⟨fun rest => ?_, fun pp sib rest => ?_, fun n fp du rest => ?_⟩
  · simp [findFiles]
  · simp [findFiles]
  · simp [findFiles]

/-! ### Claim C5 -/

/-- A run on a URL that extends `https://github.com/o/r` with extra path
segments; the world answers the root listing with an empty directory. -/
def c5Cfg : RunConfig :=
  { repoUrl := "https://github.com/o/r/tree/main"
  , filePattern := "*.sol"
  , token := none
  , rootOk := true
  , root := Fs.nil
  , fetch := fun _ => FetchResult.exc "offline" }

/-- C5 counterexample: `re.match` only anchors at the start, so
`https://github.com/o/r/tree/main` — which does not match the claimed
shape `https://github.com/<owner>/<repo>` — is accepted: the run does not
return the validation error string and it does attempt a network call
(the root-listing request). -/
theorem c5_counterexample :
    matchesRepoUrlShape "https://github.com/o/r/tree/main" = false ∧
      (run c5Cfg).output ≠ invalidUrlMsg ∧
      (run c5Cfg).requests ≠ [] := by
  decide


/-! ### Output-shape helpers and claim C5 -/

@[simp] theorem pyReplace_data (s pat rep : String) :
    (pyReplace s pat rep).data = pyReplaceData pat.data rep.data s.data := rfl

theorem summary_head (u : String) (t m sp : Nat) :
    ∃ w, (renderBlock (Block.summary u t m sp)).data = '=' :: w := by
  have hlit : ("=== REPOSITORY ANALYSIS SUMMARY ===\nRepository: " : String).data =
      '=' :: ("== REPOSITORY ANALYSIS SUMMARY ===\nRepository: " : String).data := by
    decide
  have hd : renderBlock (Block.summary u t m sp) =
      "=== REPOSITORY ANALYSIS SUMMARY ===\nRepository: " ++
        (u ++ ("\nTotal files found: " ++ (Nat.repr t ++
          ("\nMain contracts: " ++ (Nat.repr m ++
            ("\nSupporting files: " ++ (Nat.repr sp ++ "\n\n"))))))) := by
    simp [renderBlock, String.append_assoc]
  exact ⟨_, by rw [hd, String.data_append, hlit, List.cons_append]⟩

theorem finalSummaryOf_head (cfg : RunConfig) :
    ∃ w, (finalSummaryOf cfg).data = '=' :: w := by
  obtain ⟨st, hst⟩ := summary_head cfg.repoUrl (discoveredFiles cfg).length
    (mainFilesOf cfg).length (otherFilesOf cfg).length
  rw [finalSummaryOf]
  rw [pyReplace_data, pyReplaceData]
  rw [show summaryOf cfg = Block.summary cfg.repoUrl (discoveredFiles cfg).length
    (mainFilesOf cfg).length (otherFilesOf cfg).length from rfl, hst]
  rw [List.length_cons, replaceFuel_cons_neg]
  · exact ⟨_, rfl⟩
  · intro hcontra
    have hpre2 := hcontra.2
    rw [show ("Supporting files:" : String).data =
      'S' :: ("upporting files:" : String).data from by decide] at hpre2
    rw [List.isPrefixOf_cons₂] at hpre2
    simp at hpre2

theorem run_output_patch (cfg : RunConfig) (o r : String)
    (h : parseRepoUrl cfg.repoUrl = some (o, r))
    (hne : (discoveredFiles cfg).isEmpty = false) :
    (run cfg).output =
      pyReplace (prePatchOutput cfg) (renderBlock (summaryOf cfg))
        (finalSummaryOf cfg) := by
  simp [run, h, hne]

theorem run_output_head (cfg : RunConfig) (o r : String)
    (h : parseRepoUrl cfg.repoUrl = some (o, r))
    (hne : (discoveredFiles cfg).isEmpty = false) :
    ∃ w, ((run cfg).output).data = '=' :: w := by
  obtain ⟨st, hst⟩ := summary_head cfg.repoUrl (discoveredFiles cfg).length
    (mainFilesOf cfg).length (otherFilesOf cfg).length
  obtain ⟨fw, hfw⟩ := finalSummaryOf_head cfg
  have hsum : renderBlock (summaryOf cfg) = renderBlock (Block.summary
      cfg.repoUrl (discoveredFiles cfg).length (mainFilesOf cfg).length
      (otherFilesOf cfg).length) := rfl
  have hpre : (prePatchOutput cfg).data =
      (renderBlock (summaryOf cfg)).data ++
        (concatStrings (((mainLoop cfg).blocks ++ (suppLoop cfg).blocks).map
          renderBlock)).data := by
    rw [prePatchOutput, runBlocks]
    simp [concatStrings]
  rw [run_output_patch cfg o r h hne, pyReplace_data, pyReplaceData, hpre,
    hsum, hst]
  rw [List.cons_append, List.length_cons, replaceFuel_cons_pos]
  · rw [hfw]
    exact ⟨_, rfl⟩
  · constructor
    · simp
    · rw [← List.cons_append]
      exact List.isPrefixOf_iff_prefix.mpr ⟨_, rfl⟩


theorem rstrip_eq_self_of_last_ne (s : String)
    (h : ∀ (a : Char) (l : List Char), s.data.reverse = a :: l → a ≠ '/') :
    rstripSlashes s = s := by
  obtain ⟨d⟩ := s
  rw [rstripSlashes]
  cases hd : (String.mk d).data.reverse with
  | nil =>
    have hnil : d = [] := by simpa using congrArg List.reverse hd
    subst hnil
    rfl
  | cons a l =>
    have ha : ¬((a == '/') = true) := by simp [h a l hd]
    have hkey : List.dropWhile (fun c => c == '/') (a :: l) = a :: l := by
      rw [List.dropWhile_cons]
      simp [ha]
    rw [hkey, ← hd, List.reverse_reverse]

theorem takeWhile_all (p : Char → Bool) (l : List Char)
    (h : ∀ a ∈ l, p a) : l.takeWhile p = l := by
  induction l with
  | nil => rfl
  | cons a l ih =>
    rw [List.takeWhile_cons_of_pos (h a (List.mem_cons_self a l))]
    rw [ih (fun b hb => h b (List.mem_cons_of_mem a hb))]

theorem parse_exact (ow rp : String) (h1 : ow.data ≠ []) (h2 : rp.data ≠ [])
    (h3 : ∀ c ∈ ow.data, c ≠ '/') (h4 : ∀ c ∈ rp.data, c ≠ '/') :
    parseRepoUrl (githubPrefix ++ ow ++ "/" ++ rp) = some (ow, rp) := by
  have hdata : (githubPrefix ++ ow ++ "/" ++ rp).data =
      githubPrefix.data ++ (ow.data ++ ('/' :: rp.data)) := by
    simp [String.data_append]
  have hstrip : rstripSlashes (githubPrefix ++ ow ++ "/" ++ rp) =
      githubPrefix ++ ow ++ "/" ++ rp := by
    apply rstrip_eq_self_of_last_ne
    intro a l hrev
    rw [hdata] at hrev
    cases hrp : rp.data.reverse with
    | nil => exact absurd (by simpa using congrArg List.reverse hrp) h2
    | cons b bs =>
      have hb : b ∈ rp.data := by
        have : b ∈ rp.data.reverse := by rw [hrp]; exact List.mem_cons_self _ _
        simpa using this
      have hshape : (githubPrefix.data ++ (ow.data ++ ('/' :: rp.data))).reverse =
          b :: (bs ++ ('/' :: (ow.data.reverse ++ githubPrefix.data.reverse))) := by
        simp [List.reverse_append, hrp]
      rw [hshape] at hrev
      injection hrev with hab _
      rw [← hab]
      exact h4 b hb
  have hpre : githubPrefix.data.isPrefixOf
      (githubPrefix.data ++ (ow.data ++ ('/' :: rp.data))) = true :=
    List.isPrefixOf_iff_prefix.mpr ⟨_, rfl⟩
  have htw : (ow.data ++ ('/' :: rp.data)).takeWhile (fun c => c != '/') =
      ow.data := by
    rw [List.takeWhile_append_of_pos (fun a ha => by simp [h3 a ha]),
      List.takeWhile_cons_of_neg (by simp)]
    simp
  have htw2 : rp.data.takeWhile (fun c => c != '/') = rp.data :=
    takeWhile_all _ _ (fun a ha => by simp [h4 a ha])
  have how : ow.data.isEmpty = false := by
    cases hc : ow.data with
    | nil => exact absurd hc h1
    | cons x xs => rfl
  have hrp2 : rp.data.isEmpty = false := by
    cases hc : rp.data with
    | nil => exact absurd hc h2
    | cons x xs => rfl
  rw [parseRepoUrl, hstrip]
  simp only [hdata, hpre, if_true, List.drop_left, htw, htw2, how, hrp2,
    Bool.or_false, Bool.false_eq_true, if_false]


/-- C5 (amended): the fetcher returns the formatted error string — with no
network request — exactly when the anchored prefix match fails; this is
the sole validation error (a successful parse never yields the error
string).  But the match is a prefix match, not a full-shape match: every
URL of the exact claimed shape `https://github.com/<owner>/<repo>` is
accepted, and so are URLs carrying extra path segments after the repo
(see the counterexample). -/
theorem c5_url_validation (cfg : RunConfig) :
    (parseRepoUrl cfg.repoUrl = none → run cfg = ⟨invalidUrlMsg, []⟩) ∧
      (∀ o r, parseRepoUrl cfg.repoUrl = some (o, r) →
        (run cfg).output ≠ invalidUrlMsg) ∧
      (∀ ow rp : String, ow.data ≠ [] → rp.data ≠ [] →
        (∀ c ∈ ow.data, c ≠ '/') → (∀ c ∈ rp.data, c ≠ '/') →
        parseRepoUrl (githubPrefix ++ ow ++ "/" ++ rp) = some (ow, rp)) := by
  refine ⟨fun h => by simp [run, h], fun o r h => ?_, parse_exact⟩
  cases hne : (discoveredFiles cfg).isEmpty with
  | true =>
    have : (run cfg).output = noFilesMsg := by simp [run, h, hne]
    rw [this]
    decide
  | false =>
    obtain ⟨w, hw⟩ := run_output_head cfg o r h hne
    intro hcontra
    have := congrArg String.data hcontra
    rw [hw] at this
    rw [show invalidUrlMsg.data =
      'E' :: ("rror: Invalid GitHub URL format. Expected: https://github.com/owner/repo" : String).data from by decide] at this
    injection this with h1 _
    exact absurd h1 (by decide)

/-- A syntactically invalid URL: the prefix match fails outright. -/
def c5BadCfg : RunConfig :=
  { repoUrl := "github.com/o/r"
  , filePattern := "*.sol"
  , token := none
  , rootOk := true
  , root := Fs.nil
  , fetch := fun _ => FetchResult.exc "offline" }

/-- C5 witness: the amended theorem applied to a concrete rejected URL
(error string returned, no request issued) and a concrete accepted URL
(no error string). -/
theorem c5_url_validation_witness :
    parseRepoUrl "github.com/o/r" = none ∧
      run c5BadCfg = ⟨invalidUrlMsg, []⟩ ∧
      parseRepoUrl "https://github.com/o/r/tree/main" = some ("o", "r") ∧
      (run c5Cfg).output ≠ invalidUrlMsg :=
  ⟨by decide, (c5_url_validation c5BadCfg).1 (by decide), by decide,
    (c5_url_validation c5Cfg).2.1 "o" "r" (by decide)⟩



/-! ### Claim C3 -/

/-- C3: a successfully fetched main file is rendered with its complete
content embedded verbatim (never truncated, whatever its length); a
successfully fetched (and rendered) supporting file of at most 2000
characters is rendered complete, while a longer one is rendered as exactly
its first 2000 characters followed by the explicit truncation marker — so
its rendered length is a constant plus only the path and the size digits —
and the file's original character length still appears in its section
header; and every successfully fetched main file does get such a block in
the main loop's output. -/
theorem c3_render_caps (fetch : String → FetchResult) (tok : Option String)
    (p u c : String) (files : List (String × String)) (total : Nat) :
    c.data <:+: (renderBlock (Block.mainContract p c)).data ∧
      (c.length ≤ 2000 →
        renderBlock (Block.suppFile p c) =
          "\n=== SUPPORTING FILE: " ++ p ++ " ===\n" ++ "File size: " ++
            Nat.repr c.length ++ " characters\n" ++
            ("Complete content:\n" ++ c ++ "\n")) ∧
      (2000 < c.length →
        renderBlock (Block.suppFile p c) =
          "\n=== SUPPORTING FILE: " ++ p ++ " ===\n" ++ "File size: " ++
            Nat.repr c.length ++ " characters\n" ++
            ("First 2000 characters:\n" ++ pyTake c 2000 ++
              "...\n[File truncated for brevity]\n") ∧
        (renderBlock (Block.suppFile p c)).length =
          p.length + (Nat.repr c.length).length + 2106 ∧
        (pyTake c 2000).data <:+: (renderBlock (Block.suppFile p c)).data) ∧
      (Nat.repr c.length).data <:+: (renderBlock (Block.suppFile p c)).data ∧
      ((p, u) ∈ files → fetch (rewriteUrl u) = FetchResult.ok c →
        Block.mainContract p c ∈ (processMains fetch tok files total).blocks) := by
  refine ⟨?_, fun hle => ?_, fun hgt => ⟨?_, ?_, ?_⟩, ?_,
    fun hmem hok => processMains_mem_ok fetch tok files total p u c hmem hok⟩
  · exact ⟨("\n=== MAIN CONTRACT: " ++ p ++ " ===\n" ++ "Contract size: " ++
      Nat.repr c.length ++ " characters\n" ++ "Complete source code:\n").data,
      ("\n" : String).data,
      by simp [renderBlock, List.append_assoc]⟩
  · have hc : ¬(2000 < c.length) := by omega
    simp only [renderBlock, if_neg hc]
  · simp only [renderBlock, if_pos hgt]
  · have htake : (pyTake c 2000).length = 2000 := by
      have h0 : (pyTake c 2000).length = (c.data.take 2000).length := rfl
      have h1 : c.length = c.data.length := rfl
      rw [h0, List.length_take]
      omega
    simp only [renderBlock, if_pos hgt, String.length_append, htake]
    rw [show ("\n=== SUPPORTING FILE: " : String).length = 22 from by decide,
      show (" ===\n" : String).length = 5 from by decide,
      show ("File size: " : String).length = 11 from by decide,
      show (" characters\n" : String).length = 12 from by decide,
      show ("First 2000 characters:\n" : String).length = 23 from by decide,
      show ("...\n[File truncated for brevity]\n" : String).length = 33
        from by decide]
    omega
  · refine ⟨("\n=== SUPPORTING FILE: " ++ p ++ " ===\n" ++ "File size: " ++
      Nat.repr c.length ++ " characters\n" ++ "First 2000 characters:\n").data,
      ("...\n[File truncated for brevity]\n" : String).data, ?_⟩
    simp [renderBlock, hgt, List.append_assoc]
  · by_cases hgt : 2000 < c.length
    · refine ⟨("\n=== SUPPORTING FILE: " ++ p ++ " ===\n" ++
        "File size: ").data,
        (" characters\n" ++ "First 2000 characters:\n" ++ pyTake c 2000 ++
          "...\n[File truncated for brevity]\n").data, ?_⟩
      simp [renderBlock, hgt, List.append_assoc]
    · refine ⟨("\n=== SUPPORTING FILE: " ++ p ++ " ===\n" ++
        "File size: ").data,
        (" characters\n" ++ "Complete content:\n" ++ c ++ "\n").data, ?_⟩
      simp [renderBlock, hgt, List.append_assoc]

def c3Big : String := ⟨List.replicate 2001 'a'⟩

/-- C3 witness: a concrete fetched main file rendered in the main loop,
and a concrete 2001-character supporting file whose rendered length is
exactly the truncated size. -/
theorem c3_render_caps_witness :
    (("src/A.sol", "u") ∈ ([("src/A.sol", "u")] : List (String × String))) ∧
      2000 < c3Big.length ∧
      Block.mainContract "src/A.sol" "pragma" ∈
        (processMains (fun _ => FetchResult.ok "pragma") none
          [("src/A.sol", "u")] 0).blocks ∧
      (renderBlock (Block.suppFile "test/b.sol" c3Big)).length =
        "test/b.sol".length + (Nat.repr c3Big.length).length + 2106 := by
  have hbig : 2000 < c3Big.length := by
    have h0 : c3Big.length = (List.replicate 2001 'a').length := rfl
    rw [h0, List.length_replicate]
    omega
  refine ⟨by decide, hbig, ?_, ?_⟩
  · exact (c3_render_caps (fun _ => FetchResult.ok "pragma") none
      "src/A.sol" "u" "pragma" [("src/A.sol", "u")] 0).2.2.2.2
      (by decide) rfl
  · exact ((c3_render_caps (fun _ => FetchResult.ok "pragma") none
      "test/b.sol" "u" c3Big [] 0).2.2.1 hbig).2.1



/-! ### Claim C9 -/

/-- C9: a failed per-file fetch degrades to an inline `ERROR` block that
carries the file's path and its status text (or exception text), and the
loops keep going: the main loop still renders one block per file whatever
the failures, and in the supporting loop a failure (when the cap was not
yet hit) appends the error block and continues with the remaining files
with the running total unchanged.  The embedded `run` is a total function
into strings, so no failure path escapes as an exception. -/
theorem c9_fetch_errors (fetch : String → FetchResult) (tok : Option String)
    (p u msg : String) (st : Nat) (files : List (String × String))
    (total : Nat) :
    p.data <:+: (renderBlock (Block.errorStatus p st)).data ∧
      ("Could not fetch file (Status: " ++ Nat.repr st ++ ")").data <:+:
        (renderBlock (Block.errorStatus p st)).data ∧
      p.data <:+: (renderBlock (Block.errorExc p msg)).data ∧
      ("Exception: " ++ msg).data <:+:
        (renderBlock (Block.errorExc p msg)).data ∧
      (processMains fetch tok files total).blocks.length = files.length ∧
      ((p, u) ∈ files → fetch (rewriteUrl u) = FetchResult.httpError st →
        Block.errorStatus p st ∈ (processMains fetch tok files total).blocks) ∧
      (∀ rest : List (String × String), ¬100000 < total →
        fetch (rewriteUrl u) = FetchResult.httpError st →
        processSupporting fetch tok ((p, u) :: rest) total =
          ⟨Block.errorStatus p st ::
              (processSupporting fetch tok rest total).blocks,
            (processSupporting fetch tok rest total).total,
            rawRequest tok (rewriteUrl u) ::
              (processSupporting fetch tok rest total).reqs⟩) := by
  refine ⟨?_, ?_, ?_, ?_, processMains_length fetch tok files total,
    fun hmem herr => processMains_mem_err fetch tok files total p u st hmem herr,
    fun rest hcap herr =>
      processSupporting_cons_err fetch tok p u st rest total hcap herr⟩
  · exact ⟨("\n=== ERROR: " : String).data,
      (" ===\n" ++ "Could not fetch file (Status: " ++ Nat.repr st ++
        ")\n").data,
      by simp [renderBlock, List.append_assoc]⟩
  · exact ⟨("\n=== ERROR: " ++ p ++ " ===\n").data, ("\n" : String).data,
      by simp [renderBlock, List.append_assoc]⟩
  · exact ⟨("\n=== ERROR: " : String).data,
      (" ===\n" ++ "Exception: " ++ msg ++ "\n").data,
      by simp [renderBlock, List.append_assoc]⟩
  · exact ⟨("\n=== ERROR: " ++ p ++ " ===\n").data, ("\n" : String).data,
      by simp [renderBlock, List.append_assoc]⟩

/-- C9 witness: a concrete failing fetch on the first of two main files:
both files still get blocks, the error block is present, and the
supporting loop continues past a failing file. -/
theorem c9_fetch_errors_witness :
    (("src/A.sol", "bad") ∈
        ([("src/A.sol", "bad"), ("src/B.sol", "good")] :
          List (String × String))) ∧
      (fun url => if url = "bad" then FetchResult.httpError 404
        else FetchResult.ok "x") (rewriteUrl "bad") =
        FetchResult.httpError 404 ∧
      ¬100000 < 0 ∧
      (processMains (fun url => if url = "bad" then FetchResult.httpError 404
          else FetchResult.ok "x") none
        [("src/A.sol", "bad"), ("src/B.sol", "good")] 0).blocks.length = 2 ∧
      Block.errorStatus "src/A.sol" 404 ∈
        (processMains (fun url => if url = "bad" then FetchResult.httpError 404
            else FetchResult.ok "x") none
          [("src/A.sol", "bad"), ("src/B.sol", "good")] 0).blocks ∧
      processSupporting (fun url => if url = "bad" then FetchResult.httpError 404
          else FetchResult.ok "x") none [("src/A.sol", "bad")] 0 =
        ⟨[Block.errorStatus "src/A.sol" 404], 0,
          [rawRequest none (rewriteUrl "bad")]⟩ := by
  have hbad : (fun url => if url = "bad" then FetchResult.httpError 404
      else FetchResult.ok "x") (rewriteUrl "bad") = FetchResult.httpError 404 := by
    decide
  refine ⟨by decide, hbad, by decide, ?_, ?_, ?_⟩
  · rw [(c9_fetch_errors (fun url => if url = "bad" then FetchResult.httpError 404
      else FetchResult.ok "x") none "src/A.sol" "bad" "" 404
      [("src/A.sol", "bad"), ("src/B.sol", "good")] 0).2.2.2.2.1]
    decide
  · exact (c9_fetch_errors (fun url => if url = "bad" then FetchResult.httpError 404
      else FetchResult.ok "x") none "src/A.sol" "bad" "" 404
      [("src/A.sol", "bad"), ("src/B.sol", "good")] 0).2.2.2.2.2.1
      (by decide) hbad
  · have h := (c9_fetch_errors (fun url => if url = "bad" then FetchResult.httpError 404
      else FetchResult.ok "x") none "src/A.sol" "bad" "" 404 [] 0).2.2.2.2.2.2
      [] (by decide) hbad
    rw [h]
    decide




theorem processSupporting_region (fetch : String → FetchResult) (tok : Option String) :
    ∀ (files : List (String × String)) (total : Nat) (b : Block),
      b ∈ (processSupporting fetch tok files total).blocks →
        isSuppRegion b = true := by
  intro files
  induction files with
  | nil => intro total b hb; simp [processSupporting] at hb
  | cons f rest ih =>
    intro total b hb
    obtain ⟨path, durl⟩ := f
    by_cases hcap : 100000 < total
    · rw [processSupporting_cap fetch tok path durl rest total hcap] at hb
      simp at hb
      subst hb
      rfl
    · cases hf : fetch (rewriteUrl durl) with
      | ok content =>
        rw [processSupporting_cons_ok fetch tok path durl content rest total
          hcap hf] at hb
        rcases List.mem_cons.mp hb with rfl | hb'
        · rfl
        · exact ih _ _ hb'
      | httpError st =>
        rw [processSupporting_cons_err fetch tok path durl st rest total
          hcap hf] at hb
        rcases List.mem_cons.mp hb with rfl | hb'
        · rfl
        · exact ih _ _ hb'
      | exc msg =>
        rw [processSupporting_cons_exc fetch tok path durl msg rest total
          hcap hf] at hb
        rcases List.mem_cons.mp hb with rfl | hb'
        · rfl
        · exact ih _ _ hb'

/-! ### Claim C4 -/

/-- C4: for a run with a valid URL and at least one discovered file, the
rendered document is the summary block first, then the main loop's blocks
(each a `MAIN CONTRACT` or inline `ERROR` block), then the supporting
loop's blocks (`SUPPORTING FILE`, inline `ERROR`, or the truncation
notice) — so every main-file block precedes every supporting-file block —
with the truncation notice, if present, unique and last; the returned
output is the concatenation of these blocks with the summary patch
applied. -/
theorem c4_output_structure (cfg : RunConfig) (o r : String)
    (h1 : parseRepoUrl cfg.repoUrl = some (o, r))
    (h2 : discoveredFiles cfg ≠ []) :
    runBlocks cfg =
        summaryOf cfg :: ((mainLoop cfg).blocks ++ (suppLoop cfg).blocks) ∧
      (∀ b ∈ (mainLoop cfg).blocks, isMainRegion b = true) ∧
      (∀ b ∈ (suppLoop cfg).blocks, isSuppRegion b = true) ∧
      noticeCount (mainLoop cfg).blocks = 0 ∧
      noticeCount (suppLoop cfg).blocks ≤ 1 ∧
      (Block.truncNotice ∈ (suppLoop cfg).blocks →
        ((suppLoop cfg).blocks).getLast? = some Block.truncNotice) ∧
      (run cfg).output =
        pyReplace (prePatchOutput cfg) (renderBlock (summaryOf cfg))
          (finalSummaryOf cfg) := by
  have h2' : (discoveredFiles cfg).isEmpty = false := by
    cases hd : discoveredFiles cfg with
    | nil => exact absurd hd h2
    | cons x xs => rfl
  refine ⟨rfl, ?_, ?_, ?_, ?_, ?_, run_output_patch cfg o r h1 h2'⟩
  · intro b hb
    exact processMains_region cfg.fetch cfg.token (mainFilesOf cfg) 0 b hb
  · intro b hb
    exact processSupporting_region cfg.fetch cfg.token (otherFilesOf cfg)
      (mainLoop cfg).total b hb
  · exact processMains_no_notice cfg.fetch cfg.token (mainFilesOf cfg) 0
  · exact (processSupporting_notice cfg.fetch cfg.token (otherFilesOf cfg)
      (mainLoop cfg).total).1
  · exact (processSupporting_notice cfg.fetch cfg.token (otherFilesOf cfg)
      (mainLoop cfg).total).2

/-- A run with one main and one supporting file. -/
def c4Cfg : RunConfig :=
  { repoUrl := "https://github.com/a/b"
  , filePattern := "*.sol"
  , token := none
  , rootOk := true
  , root := Fs.file "A.sol" "src/A.sol" "u1"
      (Fs.file "B.t.sol" "test/B.t.sol" "u2" Fs.nil)
  , fetch := fun _ => FetchResult.ok "x" }

set_option maxRecDepth 40000 in
/-- C4 witness: the structure theorem applied to a concrete two-file run. -/
theorem c4_output_structure_witness :
    parseRepoUrl c4Cfg.repoUrl = some ("a", "b") ∧
      discoveredFiles c4Cfg ≠ [] ∧
      runBlocks c4Cfg =
        summaryOf c4Cfg :: ((mainLoop c4Cfg).blocks ++ (suppLoop c4Cfg).blocks) :=
  ⟨by decide, by decide,
    (c4_output_structure c4Cfg "a" "b" (by decide) (by decide)).1⟩

/-! ### Claim C10 -/

/-- C10: the running counter equals the sum of the rendered lengths of the
successfully rendered `MAIN CONTRACT` and `SUPPORTING FILE` blocks only
(`blockCharge` is zero on error blocks and the notice, and the summary is
outside both loops); consequently, when the main loop's total already
exceeds 100000 and at least one supporting file exists, the supporting
loop emits exactly the truncation notice — before rendering or even
fetching any supporting file. -/
theorem c10_size_counter (fetch : String → FetchResult) (tok : Option String)
    (files mfiles others : List (String × String)) (total : Nat)
    (hne : others ≠ [])
    (hbig : 100000 < (processMains fetch tok mfiles 0).total) :
    (processMains fetch tok files total).total =
        total + (((processMains fetch tok files total).blocks).map blockCharge).sum ∧
      (processSupporting fetch tok files total).total =
        total + (((processSupporting fetch tok files total).blocks).map
          blockCharge).sum ∧
      (processSupporting fetch tok others
          ((processMains fetch tok mfiles 0).total)).blocks =
        [Block.truncNotice] ∧
      (processSupporting fetch tok others
          ((processMains fetch tok mfiles 0).total)).reqs = [] := by
  refine ⟨processMains_total fetch tok files total,
    processSupporting_total_charge fetch tok files total, ?_, ?_⟩
  all_goals
    cases others with
    | nil => exact absurd rfl hne
    | cons pu rest =>
      obtain ⟨p, u⟩ := pu
      rw [processSupporting_cap fetch tok p u rest _ hbig]

def c10Big : String := ⟨List.replicate 100000 'a'⟩

def c10Fetch : String → FetchResult := fun _ => FetchResult.ok c10Big

theorem c10_render_length :
    (renderBlock (Block.mainContract "src/Big.sol" c10Big)).length = 100092 := by
  have hlen : c10Big.length = 100000 := by
    rw [show c10Big.length = (List.replicate 100000 'a').length from rfl,
      List.length_replicate]
  simp only [renderBlock, String.length_append, hlen]
  rw [show (Nat.repr 100000).length = 6 from by decide,
    show ("\n=== MAIN CONTRACT: " : String).length = 20 from by decide,
    show ("src/Big.sol" : String).length = 11 from by decide,
    show (" ===\n" : String).length = 5 from by decide,
    show ("Contract size: " : String).length = 15 from by decide,
    show (" characters\n" : String).length = 12 from by decide,
    show ("Complete source code:\n" : String).length = 22 from by decide,
    show ("\n" : String).length = 1 from by decide]

theorem main_total_single (fetch : String → FetchResult) (tok : Option String)
    (p u c : String) (hf : fetch (rewriteUrl u) = FetchResult.ok c) :
    (processMains fetch tok [(p, u)] 0).total =
      0 + (renderBlock (Block.mainContract p c)).length := by
  rw [processMains_cons_ok fetch tok p u c [] 0 hf]
  rfl

theorem c10_main_total :
    (processMains c10Fetch none [("src/Big.sol", "u")] 0).total = 100092 := by
  rw [main_total_single c10Fetch none "src/Big.sol" "u" c10Big rfl,
    c10_render_length]

/-- C10 witness: one 100000-character main contract pushes the counter to
100092; the single supporting file is then skipped with only the notice. -/
theorem c10_size_counter_witness :
    (([("test/a.sol", "u2")] : List (String × String)) ≠ []) ∧
      100000 < (processMains c10Fetch none [("src/Big.sol", "u")] 0).total ∧
      (processSupporting c10Fetch none [("test/a.sol", "u2")]
          ((processMains c10Fetch none [("src/Big.sol", "u")] 0).total)).blocks =
        [Block.truncNotice] := by
  have hbig : 100000 < (processMains c10Fetch none [("src/Big.sol", "u")] 0).total := by
    rw [c10_main_total]
    omega
  exact ⟨by decide, hbig,
    (c10_size_counter c10Fetch none [] [("src/Big.sol", "u")]
      [("test/a.sol", "u2")] 0 (by decide) hbig).2.2.1⟩



/-! ### Claim C7 -/

theorem crawlReqs_listing (owner repo : String) (tok : Option String) :
    ∀ (f : Fs) (r : Request), r ∈ crawlReqs owner repo tok f →
      r.kind = RequestKind.listing ∧ r.auth = listingAuth tok := by
  intro f
  induction f with
  | nil => intro r hr; simp [crawlReqs] at hr
  | file n p d rest ih =>
    intro r hr
    exact ih r hr
  | misc n p rest ih =>
    intro r hr
    exact ih r hr
  | dir p ok entries rest ihe ihr =>
    intro r hr
    rw [crawlReqs] at hr
    rcases List.mem_append.mp hr with hr1 | hr2
    · rcases List.mem_cons.mp hr1 with rfl | hr1'
      · exact ⟨rfl, rfl⟩
      · cases ok with
        | true => exact ihe r (by simpa using hr1')
        | false => simp at hr1'
    · exact ihr r hr2

/-- C7 (amended): the token, when present, is attached on content-listing
requests; but raw-content requests are not anonymous — every raw-content
request carries an `Authorization` header whose value is the token
credential when a token is present and the empty string otherwise, so raw
request headers do differ with and without a token. -/
theorem c7_header_attachment (tok : Option String) :
    (∀ (owner repo : String) (f : Fs) (r : Request),
        r ∈ crawlReqs owner repo tok f →
        r.kind = RequestKind.listing ∧ r.auth = listingAuth tok) ∧
      (∀ (fetch : String → FetchResult) (files : List (String × String))
          (total : Nat) (r : Request),
        r ∈ (processMains fetch tok files total).reqs →
        r.kind = RequestKind.raw ∧ r.auth = some (rawAuthValue tok)) ∧
      (∀ (fetch : String → FetchResult) (files : List (String × String))
          (total : Nat) (r : Request),
        r ∈ (processSupporting fetch tok files total).reqs →
        r.kind = RequestKind.raw ∧ r.auth = some (rawAuthValue tok)) ∧
      (∀ t : String, rawAuthValue (some t) ≠ rawAuthValue none) := by
  refine ⟨fun owner repo f r hr => crawlReqs_listing owner repo tok f r hr,
    fun fetch files total r hr => processMains_reqs fetch tok files total r hr,
    fun fetch files total r hr => processSupporting_reqs fetch tok files total r hr,
    fun t hcontra => ?_⟩
  have hlen := congrArg String.length hcontra
  rw [show rawAuthValue (some t) = "token " ++ t from rfl,
    show rawAuthValue none = "" from rfl, String.length_append,
    show ("token " : String).length = 6 from by decide,
    show ("" : String).length = 0 from by decide] at hlen
  omega

/-- C7 witness: the characterization applied to the one raw-content
request of a one-file main loop under a concrete token. -/
theorem c7_header_attachment_witness :
    (rawRequest (some "T") (rewriteUrl "u") ∈
        (processMains (fun _ => FetchResult.ok "x") (some "T")
          [("src/A.sol", "u")] 0).reqs) ∧
      (rawRequest (some "T") (rewriteUrl "u")).kind = RequestKind.raw ∧
      (rawRequest (some "T") (rewriteUrl "u")).auth =
        some (rawAuthValue (some "T")) := by
  have hmem : rawRequest (some "T") (rewriteUrl "u") ∈
      (processMains (fun _ => FetchResult.ok "x") (some "T")
        [("src/A.sol", "u")] 0).reqs := by decide
  have h := (c7_header_attachment (some "T")).2.1
    (fun _ => FetchResult.ok "x") [("src/A.sol", "u")] 0
    (rawRequest (some "T") (rewriteUrl "u")) hmem
  exact ⟨hmem, h.1, h.2⟩

def c7NoTokCfg : RunConfig :=
  { repoUrl := "https://github.com/a/b"
  , filePattern := "*.sol"
  , token := none
  , rootOk := true
  , root := Fs.file "A.sol" "src/A.sol" "u1" Fs.nil
  , fetch := fun _ => FetchResult.ok "x" }

def c7TokCfg : RunConfig :=
  { c7NoTokCfg with token := some "T" }

set_option maxRecDepth 40000 in
/-- C7 counterexample: two runs identical except for the environment
token.  The raw-content request of the run with the token carries
`Authorization: token T`, while the run without carries
`Authorization:` with an empty value — the raw-content request headers
are not identical, falsifying the claimed anonymity of raw fetches. -/
theorem c7_counterexample :
    ((run c7TokCfg).requests.filter Request.isRawContent).map Request.auth =
        [some "token T"] ∧
      ((run c7NoTokCfg).requests.filter Request.isRawContent).map Request.auth =
        [some ""] ∧
      ((run c7TokCfg).requests.filter Request.isRawContent) ≠
        ((run c7NoTokCfg).requests.filter Request.isRawContent) := by
  decide



/-! ### Claim C6 -/

theorem summary_decomp (u : String) (t m sp : Nat) :
    (renderBlock (Block.summary u t m sp)).data =
      (("=== REPOSITORY ANALYSIS SUMMARY ===\n" : String).data ++
        (("Repository: " : String).data ++ (u.data ++ (("\n" : String).data ++
          (("Total files found: " : String).data ++ ((Nat.repr t).data ++
            (("\n" : String).data ++ (("Main contracts: " : String).data ++
              ((Nat.repr m).data ++ ("\n" : String).data))))))))) ++
      (("Supporting files:" : String).data ++
        ([' '] ++ ((Nat.repr sp).data ++ ("\n\n" : String).data))) := by
  have hsplit : ("Supporting files: " : String).data =
      ("Supporting files:" : String).data ++ [' '] := by decide
  simp [renderBlock, String.data_append, hsplit, List.append_assoc]

theorem replace_summary_longer (u : String) (t m sp : Nat) (R : String)
    (hR : 18 ≤ R.data.length) :
    (renderBlock (Block.summary u t m sp)).data.length + 1 ≤
      (replaceFuel ("Supporting files:" : String).data R.data
        ((renderBlock (Block.summary u t m sp)).data.length)
        ((renderBlock (Block.summary u t m sp)).data)).length := by
  have hpat17 : (("Supporting files:" : String).data).length = 17 := by decide
  rw [summary_decomp]
  have hocc := replaceFuel_length_occ ("Supporting files:" : String).data R.data
    (by decide) (by omega)
    (("=== REPOSITORY ANALYSIS SUMMARY ===\n" : String).data ++
      (("Repository: " : String).data ++ (u.data ++ (("\n" : String).data ++
        (("Total files found: " : String).data ++ ((Nat.repr t).data ++
          (("\n" : String).data ++ (("Main contracts: " : String).data ++
            ((Nat.repr m).data ++ ("\n" : String).data)))))))))
    ([' '] ++ ((Nat.repr sp).data ++ ("\n\n" : String).data))
    ((("=== REPOSITORY ANALYSIS SUMMARY ===\n" : String).data ++
        (("Repository: " : String).data ++ (u.data ++ (("\n" : String).data ++
          (("Total files found: " : String).data ++ ((Nat.repr t).data ++
            (("\n" : String).data ++ (("Main contracts: " : String).data ++
              ((Nat.repr m).data ++ ("\n" : String).data))))))))) ++
      (("Supporting files:" : String).data ++
        ([' '] ++ ((Nat.repr sp).data ++ ("\n\n" : String).data)))).length
    (Nat.le_refl _)
  omega

theorem replaceFuel_head_append (pat rep rest : List Char) (c : Char)
    (t : List Char) (hpat : pat = c :: t) :
    replaceFuel pat rep ((pat ++ rest).length) (pat ++ rest) =
      rep ++ replaceFuel pat rep ((t ++ rest).length) rest := by
  subst hpat
  rw [List.cons_append, List.length_cons, replaceFuel_cons_pos]
  · congr 1
    rw [← List.cons_append, List.drop_left]
  · constructor
    · simp
    · rw [← List.cons_append]
      exact List.isPrefixOf_iff_prefix.mpr ⟨_, rfl⟩

/-- C6 (amended): the summary is retroactively patched, but the size it
reports is the length of `full_output` — the document as joined before
the patch is substituted in — and the patch itself lengthens the
document, so the returned document is strictly longer than the reported
total size (the claimed equality never holds on a rendered run). -/
theorem c6_summary_patch (cfg : RunConfig) (o r : String)
    (h1 : parseRepoUrl cfg.repoUrl = some (o, r))
    (h2 : discoveredFiles cfg ≠ []) :
    finalSummaryOf cfg =
        pyReplace (renderBlock (summaryOf cfg)) "Supporting files:"
          ("Supporting files: " ++ Nat.repr (otherFilesOf cfg).length ++
            "\nTotal output size: " ++ Nat.repr (prePatchOutput cfg).length ++
            " characters\n") ∧
      (prePatchOutput cfg).length < ((run cfg).output).length := by
  have h2' : (discoveredFiles cfg).isEmpty = false := by
    cases hd : discoveredFiles cfg with
    | nil => exact absurd hd h2
    | cons x xs => rfl
  refine ⟨rfl, ?_⟩
  have hR : 18 ≤ (("Supporting files: " ++ Nat.repr (otherFilesOf cfg).length ++
      "\nTotal output size: " ++ Nat.repr (prePatchOutput cfg).length ++
      " characters\n" : String)).data.length := by
    rw [show (("Supporting files: " ++ Nat.repr (otherFilesOf cfg).length ++
        "\nTotal output size: " ++ Nat.repr (prePatchOutput cfg).length ++
        " characters\n" : String)).data.length =
      (("Supporting files: " ++ Nat.repr (otherFilesOf cfg).length ++
        "\nTotal output size: " ++ Nat.repr (prePatchOutput cfg).length ++
        " characters\n" : String)).length from rfl]
    simp only [String.length_append]
    rw [show ("Supporting files: " : String).length = 18 from by decide]
    omega
  have hfin : (renderBlock (summaryOf cfg)).data.length + 1 ≤
      (finalSummaryOf cfg).data.length :=
    replace_summary_longer cfg.repoUrl (discoveredFiles cfg).length
      (mainFilesOf cfg).length (otherFilesOf cfg).length
      ("Supporting files: " ++ Nat.repr (otherFilesOf cfg).length ++
        "\nTotal output size: " ++ Nat.repr (prePatchOutput cfg).length ++
        " characters\n") hR
  obtain ⟨st, hst⟩ := summary_head cfg.repoUrl (discoveredFiles cfg).length
    (mainFilesOf cfg).length (otherFilesOf cfg).length
  have hpre : (prePatchOutput cfg).data =
      (renderBlock (summaryOf cfg)).data ++
        (concatStrings (((mainLoop cfg).blocks ++ (suppLoop cfg).blocks).map
          renderBlock)).data := by
    rw [prePatchOutput, runBlocks]
    simp [concatStrings]
  have hout : ((run cfg).output).data =
      (finalSummaryOf cfg).data ++
        replaceFuel (renderBlock (summaryOf cfg)).data (finalSummaryOf cfg).data
          ((st ++ (concatStrings (((mainLoop cfg).blocks ++
            (suppLoop cfg).blocks).map renderBlock)).data).length)
          (concatStrings (((mainLoop cfg).blocks ++ (suppLoop cfg).blocks).map
            renderBlock)).data := by
    rw [run_output_patch cfg o r h1 h2', pyReplace_data, pyReplaceData, hpre,
      replaceFuel_head_append (renderBlock (summaryOf cfg)).data
        (finalSummaryOf cfg).data _ '=' st hst]
  have hge := replaceFuel_length_ge (renderBlock (summaryOf cfg)).data
    (finalSummaryOf cfg).data (by omega)
    ((st ++ (concatStrings (((mainLoop cfg).blocks ++
      (suppLoop cfg).blocks).map renderBlock)).data).length)
    (concatStrings (((mainLoop cfg).blocks ++ (suppLoop cfg).blocks).map
      renderBlock)).data
  have hlenpre : (prePatchOutput cfg).length =
      (renderBlock (summaryOf cfg)).data.length +
        (concatStrings (((mainLoop cfg).blocks ++ (suppLoop cfg).blocks).map
          renderBlock)).data.length := by
    rw [show (prePatchOutput cfg).length = (prePatchOutput cfg).data.length
      from rfl, hpre, List.length_append]
  have hlenout : ((run cfg).output).length =
      (finalSummaryOf cfg).data.length +
        (replaceFuel (renderBlock (summaryOf cfg)).data
          (finalSummaryOf cfg).data
          ((st ++ (concatStrings (((mainLoop cfg).blocks ++
            (suppLoop cfg).blocks).map renderBlock)).data).length)
          (concatStrings (((mainLoop cfg).blocks ++ (suppLoop cfg).blocks).map
            renderBlock)).data).length := by
    rw [show ((run cfg).output).length = ((run cfg).output).data.length
      from rfl, hout, List.length_append]
  omega

def c6Cfg : RunConfig :=
  { repoUrl := "https://github.com/a/b"
  , filePattern := "*.sol"
  , token := none
  , rootOk := true
  , root := Fs.file "A.sol" "src/A.sol" "u1" Fs.nil
  , fetch := fun _ => FetchResult.ok "pragma" }

set_option maxRecDepth 100000 in
/-- C6 counterexample: on a one-file run the summary patch writes
`Total output size: 222 characters` (the length of the pre-patch
document, by the definition of `finalSummaryOf`), but the returned
document is 259 characters long — the reported total does not equal the
length of the document actually returned. -/
theorem c6_counterexample :
    (prePatchOutput c6Cfg).length = 222 ∧
      ((run c6Cfg).output).length = 259 ∧
      ¬(prePatchOutput c6Cfg).length = ((run c6Cfg).output).length := by
  refine ⟨by decide, by decide, ?_⟩
  intro h
  rw [show (prePatchOutput c6Cfg).length = 222 from by decide,
    show ((run c6Cfg).output).length = 259 from by decide] at h
  omega

/-- C6 witness: the amended theorem applied to the same concrete run. -/
theorem c6_summary_patch_witness :
    parseRepoUrl c6Cfg.repoUrl = some ("a", "b") ∧
      discoveredFiles c6Cfg ≠ [] ∧
      (prePatchOutput c6Cfg).length < ((run c6Cfg).output).length :=
  ⟨by decide, by decide,
    (c6_summary_patch c6Cfg "a" "b" (by decide) (by decide)).2⟩


end AuditAgent
